import Mathlib

set_option maxRecDepth 8000

/-!
# Verification of the particle-field simulation engine

Shallow embedding of the numerical core of the portfolio's particle-field
scenes, together with proofs of the specification's claims about it.

Conventions used throughout:

* JavaScript numbers are IEEE-754 doubles; every double is a rational
  number, and the spec's claims are about the ideal real/rational
  semantics of the arithmetic.  Code paths that only use `+ - * /`,
  `Math.floor`, `%` and comparisons are embedded over `ℚ` (so that they
  stay executable and decidable); code paths that use `Math.sqrt`,
  `Math.sin`, `Math.cos` or `Math.tan` are embedded over `ℝ` with
  Mathlib's exact functions.
* JavaScript `a % b` (fmod, sign of the dividend) on reals is embedded as
  `jsmod`, and the bitmask `i & 255` applied to an integer-valued double
  is embedded as `Int.emod · 256` (`ToInt32` wraps modulo 2^32 and
  `& 255` then takes the low 8 bits, which is `mod 256` since
  `256 ∣ 2^32`).
* `Map` objects keyed by the string `` `${cx},${cy}` `` are embedded as
  functions out of `ℤ × ℤ`; the key-string encoding is injective on
  integer pairs, so this is faithful.
-/

namespace SimplexNoise

/-- The 12 fixed gradient directions `grad3` of the `SimplexNoise` class. -/
def grad3 : List (ℤ × ℤ × ℤ) :=
  [(1, 1, 0), (-1, 1, 0), (1, -1, 0), (-1, -1, 0),
   (1, 0, 1), (-1, 0, 1), (1, 0, -1), (-1, 0, -1),
   (0, 1, 1), (0, -1, 1), (0, 1, -1), (0, -1, -1)]

/-- One iteration of the constructor's seed-based shuffle (loop body for a
given `i`): advance the linear-congruential state `s`, pick
`j = s % (i+1)` and swap `p[i]` with `p[j]`. -/
def shuffleStep (st : ℕ × List ℕ) (i : ℕ) : ℕ × List ℕ :=
  let s := (st.1 * 16807) % 2147483647
  let p := st.2
  let j := s % (i + 1)
  (s, (p.set i (p.getD j 0)).set j (p.getD i 0))

/-- The list of loop indices `i = 255, 254, …, 1` of the constructor's
shuffle loop. -/
def shuffleIdxs : List ℕ := (List.range 255).map (fun k => 255 - k)

/-- The shuffled permutation `p` built by the `SimplexNoise` constructor
from an integer seed (the scenes construct `new SimplexNoise(12345)`;
integer seeds stay exact in double arithmetic). -/
def shuffledP (seed : ℕ) : List ℕ :=
  (shuffleIdxs.foldl shuffleStep (seed, List.range 256)).2

/-- `this.perm`: the length-512 table with `perm[i] = p[i & 255]`. -/
def permList (seed : ℕ) : List ℕ :=
  (List.range 512).map (fun i => (shuffledP seed).getD (i % 256) 0)

/-- `this.gradP`: the length-512 table with `gradP[i] = grad3[perm[i] % 12]`. -/
def gradPList (seed : ℕ) : List (ℤ × ℤ × ℤ) :=
  (permList seed).map (fun v => grad3.getD (v % 12) (0, 0, 0))

/-- The state of a constructed `SimplexNoise` instance: its two tables. -/
structure State where
  perm : List ℕ
  gradP : List (ℤ × ℤ × ℤ)
  deriving DecidableEq

/-- `new SimplexNoise(seed)`. -/
def mk (seed : ℕ) : State :=
  ⟨permList seed, gradPList seed⟩

/-- Reading `this.perm[n]` (out-of-range reads return the default `0`;
the in-bounds claim C10 shows the default is never used by `noise3D`). -/
def permAt (st : State) (n : ℕ) : ℕ := st.perm.getD n 0

/-- Reading `this.gradP[n]`. -/
def gradAt (st : State) (n : ℕ) : ℤ × ℤ × ℤ := st.gradP.getD n (0, 0, 0)

/-- The simplex-ordering branch of `noise3D`: from the unskewed offsets
`(x0, y0, z0)` decide which of the six orderings of the unit simplex the
point falls into, returning the second and third corner offsets
`((i1,j1,k1), (i2,j2,k2))`. -/
def simplexCorners (x0 y0 z0 : ℚ) : (ℕ × ℕ × ℕ) × (ℕ × ℕ × ℕ) :=
  if y0 ≤ x0 then
    if z0 ≤ y0 then ((1, 0, 0), (1, 1, 0))
    else if z0 ≤ x0 then ((1, 0, 0), (1, 0, 1))
    else ((0, 0, 1), (1, 0, 1))
  else
    if y0 < z0 then ((0, 0, 1), (0, 1, 1))
    else if x0 < z0 then ((0, 1, 0), (0, 1, 1))
    else ((0, 1, 0), (1, 1, 0))

/-- One corner contribution of `noise3D`: the radially faded kernel
`t = 0.6 - d·d`, contributing `t⁴ · (g · d)` when `t ≥ 0` and `0`
otherwise. -/
def cornerVal (g : ℤ × ℤ × ℤ) (dx dy dz : ℚ) : ℚ :=
  let t := 3/5 - dx * dx - dy * dy - dz * dz
  if 0 ≤ t then (t * t) * (t * t) * ((g.1 : ℚ) * dx + (g.2.1 : ℚ) * dy + (g.2.2 : ℚ) * dz)
  else 0

/-- The skewed lattice cell of the query point: `i = ⌊x + s⌋` etc. with
`s = (x+y+z)·F3`. -/
def latticeCell (x y z : ℚ) : ℤ × ℤ × ℤ :=
  let s := (x + y + z) * (1/3)
  (⌊x + s⌋, ⌊y + s⌋, ⌊z + s⌋)

/-- The masked lattice indices `ii = i & 255`, `jj = j & 255`,
`kk = k & 255` (as naturals in `[0, 255]`). -/
def maskedCell (x y z : ℚ) : ℕ × ℕ × ℕ :=
  let c := latticeCell x y z
  ((c.1 % 256).toNat, (c.2.1 % 256).toNat, (c.2.2 % 256).toNat)

/-- The unskewed offsets `(x0, y0, z0)` of the query point from the
cell's first corner. -/
def cellOffset (x y z : ℚ) : ℚ × ℚ × ℚ :=
  let c := latticeCell x y z
  let t := ((c.1 + c.2.1 + c.2.2 : ℤ) : ℚ) * (1/6)
  (x - ((c.1 : ℚ) - t), y - ((c.2.1 : ℚ) - t), z - ((c.2.2 : ℚ) - t))

/-- The index `ii + perm[jj + perm[kk]]` of the first corner's gradient
lookup in `noise3D`. -/
def giIndex0 (st : State) (x y z : ℚ) : ℕ :=
  (maskedCell x y z).1 +
    permAt st ((maskedCell x y z).2.1 + permAt st (maskedCell x y z).2.2)

/-- The index `ii + i1 + perm[jj + j1 + perm[kk + k1]]` of the second
corner's gradient lookup in `noise3D`. -/
def giIndex1 (st : State) (x y z : ℚ) : ℕ :=
  (maskedCell x y z).1 +
    ((simplexCorners (cellOffset x y z).1 (cellOffset x y z).2.1 (cellOffset x y z).2.2).1).1 +
    permAt st ((maskedCell x y z).2.1 +
      ((simplexCorners (cellOffset x y z).1 (cellOffset x y z).2.1
        (cellOffset x y z).2.2).1).2.1 +
      permAt st ((maskedCell x y z).2.2 +
        ((simplexCorners (cellOffset x y z).1 (cellOffset x y z).2.1
          (cellOffset x y z).2.2).1).2.2))

/-- The index `ii + i2 + perm[jj + j2 + perm[kk + k2]]` of the third
corner's gradient lookup in `noise3D`. -/
def giIndex2 (st : State) (x y z : ℚ) : ℕ :=
  (maskedCell x y z).1 +
    ((simplexCorners (cellOffset x y z).1 (cellOffset x y z).2.1 (cellOffset x y z).2.2).2).1 +
    permAt st ((maskedCell x y z).2.1 +
      ((simplexCorners (cellOffset x y z).1 (cellOffset x y z).2.1
        (cellOffset x y z).2.2).2).2.1 +
      permAt st ((maskedCell x y z).2.2 +
        ((simplexCorners (cellOffset x y z).1 (cellOffset x y z).2.1
          (cellOffset x y z).2.2).2).2.2))

/-- The index `ii + 1 + perm[jj + 1 + perm[kk + 1]]` of the last corner's
gradient lookup in `noise3D`. -/
def giIndex3 (st : State) (x y z : ℚ) : ℕ :=
  (maskedCell x y z).1 + 1 +
    permAt st ((maskedCell x y z).2.1 + 1 + permAt st ((maskedCell x y z).2.2 + 1))

/-- `noise3D(x, y, z)` of the `SimplexNoise` class, embedded over `ℚ`
(the method body only uses `+ - *`, `Math.floor`, `& 255` and
comparisons, all exact on rationals). -/
def noise3D (st : State) (x y z : ℚ) : ℚ :=
  let o := cellOffset x y z
  let x0 := o.1
  let y0 := o.2.1
  let z0 := o.2.2
  let cs := simplexCorners x0 y0 z0
  let i1 := cs.1.1
  let j1 := cs.1.2.1
  let k1 := cs.1.2.2
  let i2 := cs.2.1
  let j2 := cs.2.2.1
  let k2 := cs.2.2.2
  let x1 := x0 - (i1 : ℚ) + 1/6
  let y1 := y0 - (j1 : ℚ) + 1/6
  let z1 := z0 - (k1 : ℚ) + 1/6
  let x2 := x0 - (i2 : ℚ) + 2 * (1/6)
  let y2 := y0 - (j2 : ℚ) + 2 * (1/6)
  let z2 := z0 - (k2 : ℚ) + 2 * (1/6)
  let x3 := x0 - 1 + 3 * (1/6)
  let y3 := y0 - 1 + 3 * (1/6)
  let z3 := z0 - 1 + 3 * (1/6)
  let n0 := cornerVal (gradAt st (giIndex0 st x y z)) x0 y0 z0
  let n1 := cornerVal (gradAt st (giIndex1 st x y z)) x1 y1 z1
  let n2 := cornerVal (gradAt st (giIndex2 st x y z)) x2 y2 z2
  let n3 := cornerVal (gradAt st (giIndex3 st x y z)) x3 y3 z3
  32 * (n0 + n1 + n2 + n3)

/-- A call of the `noise3D` method on an instance, as a state-passing
function: the method only reads the tables built by the constructor; it
never assigns any instance field, so the post-call state is the pre-call
state. -/
def noise3DCall (st : State) (v : ℚ × ℚ × ℚ) : ℚ × State :=
  (noise3D st v.1 v.2.1 v.2.2, st)

end SimplexNoise

namespace SpatialHash

/-- The hash grid: the `Map` from cell-key strings to lists of particle
indices, embedded as a function out of the (injectively encoded) integer
cell pair.  Absent keys map to the empty list. -/
def Grid : Type := ℤ × ℤ → List ℕ

section

variable {α : Type} [LinearOrderedField α] [FloorRing α]

/-- The cell key `(⌊x / cellSize⌋, ⌊y / cellSize⌋)` (`getKey`).  The
class's `cellSize` field is passed explicitly; the scenes construct the
hash with `cellSize = config.connectionDistance`.  The embedding is
parametric in the coordinate field so that the same definition serves
exact rational inputs and real ones. -/
def cellKey (cellSize x y : α) : ℤ × ℤ := (⌊x / cellSize⌋, ⌊y / cellSize⌋)

/-- `clear()`: the empty grid. -/
def clear : Grid := fun _ => []

/-- `insert(index, x, y)`: push `index` onto the cell's list. -/
def insert (cellSize : α) (g : Grid) (index : ℕ) (x y : α) : Grid :=
  fun k => if k = cellKey cellSize x y then g k ++ [index] else g k

/-- A sequence of `insert` calls (in list order) after a `clear`-reset
grid `g`. -/
def insertAll (cellSize : α) (g : Grid) (items : List (ℕ × α × α)) : Grid :=
  items.foldl (fun acc it => insert cellSize acc it.1 it.2.1 it.2.2) g

/-- `getPotentialNeighbors(x, y)`: concatenate the lists of the 3×3
block of cells around the query point's cell, `dx` outer, `dy` inner. -/
def getPotentialNeighbors (cellSize : α) (g : Grid) (x y : α) : List ℕ :=
  let c := cellKey cellSize x y
  ([-1, 0, 1] : List ℤ).flatMap fun dx =>
    ([-1, 0, 1] : List ℤ).flatMap fun dy =>
      g (c.1 + dx, c.2 + dy)

end

end SpatialHash

/-- Soft-margin wrap of one coordinate, as in the constellation scene
(`EDGE_MARGIN = 0.05`) and the gravity scene (`margin = 0.1`):
`if (p.x < -m) p.x = 1 + m; if (p.x > 1 + m) p.x = -m;` with the second
test reading the value written by the first. -/
def wrapSoft (m x : ℚ) : ℚ :=
  let x1 := if x < -m then 1 + m else x
  if 1 + m < x1 then -m else x1

/-- Hard wrap of one coordinate, as in the flow-field scene:
`if (p.x < 0) p.x = 1; if (p.x > 1) p.x = 0;`. -/
def wrapHard (x : ℚ) : ℚ :=
  let x1 := if x < 0 then 1 else x
  if 1 < x1 then 0 else x1

/-- The soft boundary policy applied to a position (x first, then y,
exactly as the four `if` statements run). -/
def wrapSoftPoint (m : ℚ) (p : ℚ × ℚ) : ℚ × ℚ := (wrapSoft m p.1, wrapSoft m p.2)

/-- The hard boundary policy applied to a position. -/
def wrapHardPoint (p : ℚ × ℚ) : ℚ × ℚ := (wrapHard p.1, wrapHard p.2)

namespace Flow

/-- The Euclidean distance from a particle to the (smoothed) pointer, as
computed by `getVortexVelocity` and by the frame loop's blend code
(`dx = p.x - mouseX` etc.). -/
noncomputable def pointerDist (px py mx my : ℝ) : ℝ :=
  Real.sqrt ((px - mx) * (px - mx) + (py - my) * (py - my))

/-- `getVortexVelocity(px, py, mx, my)` of the flow-field scene, with the
configured `vortexRadius` `R` and `vortexStrength` `S` as parameters
(`R = 0.2`, `S = 0.006`, or `0.003` under reduced motion). -/
noncomputable def getVortexVelocity (R S px py mx my : ℝ) : ℝ × ℝ :=
  let dx := px - mx
  let dy := py - my
  let dist := pointerDist px py mx my
  if R < dist ∨ dist < 0.01 then (0, 0)
  else
    let tx := -dy / dist
    let ty := dx / dist
    let normalizedDist := dist / R
    let strength := (1 - normalizedDist * normalizedDist) * S
    (tx * strength, ty * strength)

/-- `vortexInfluence = Math.max(0, 1 - dist / config.vortexRadius)` from
the flow-field frame loop. -/
noncomputable def vortexInfluence (R px py mx my : ℝ) : ℝ :=
  max 0 (1 - pointerDist px py mx my / R)

/-- The weight `(1 - vortexInfluence * 0.8)` applied to the ambient flow
velocity in the flow/vortex blend. -/
def ambientWeightFlow (influence : ℝ) : ℝ := 1 - influence * 0.8

/-- The flow/vortex blend of the flow-field frame loop (run when the
pointer is active): `vx = vx * (1 - vortexInfluence * 0.8) + vortexX`
and likewise for `vy`, where `(vx, vy)` is the ambient flow velocity. -/
noncomputable def blendFlowVortex (R S px py mx my vx vy : ℝ) : ℝ × ℝ :=
  let v := getVortexVelocity R S px py mx my
  let influence := vortexInfluence R px py mx my
  (vx * ambientWeightFlow influence + v.1, vy * ambientWeightFlow influence + v.2)

end Flow

namespace Gravity

/-- `calculateGravity(px, py, ax, ay, mass, G)` of the orbital scene,
with the configured `softening` as a parameter (`0.03`). -/
noncomputable def calculateGravity (softening px py ax ay mass G : ℝ) : ℝ × ℝ :=
  let dx := ax - px
  let dy := ay - py
  let distSq := dx * dx + dy * dy + softening * softening
  let dist := Real.sqrt distSq
  let force := G * mass / distSq
  (dx / dist * force, dy / dist * force)

/-- The weight `(1 - influence * 0.7)` applied to the ambient attractor
acceleration in the mouse-gravity blend. -/
def ambientWeightGravity (influence : ℝ) : ℝ := 1 - influence * 0.7

/-- The mouse-gravity blend of the orbital scene's frame loop: when the
pointer is active and `dist < mouseRadius`, the accumulated attractor
acceleration `(ax, ay)` becomes
`ax * (1 - influence * 0.7) + gx * influence` (and likewise `ay`), where
`influence = 1 - dist / mouseRadius` and `(gx, gy)` is the pointer's
gravity with mass `3.0` and `G` scaled by `mouseGravityMultiplier`. -/
noncomputable def blendMouseGravity (mouseRadius softening G mult px py mx my axv ayv : ℝ) :
    ℝ × ℝ :=
  let dist := Flow.pointerDist px py mx my
  if dist < mouseRadius then
    let influence := 1 - dist / mouseRadius
    let g := calculateGravity softening px py mx my 3 (G * mult)
    (axv * ambientWeightGravity influence + g.1 * influence,
     ayv * ambientWeightGravity influence + g.2 * influence)
  else (axv, ayv)

end Gravity

namespace Sea

/-- The shader helper `rot2(p, a)`: rotate `p` by angle `a`. -/
noncomputable def rot2 (p : ℝ × ℝ) (a : ℝ) : ℝ × ℝ :=
  (Real.cos a * p.1 - Real.sin a * p.2, Real.sin a * p.1 + Real.cos a * p.2)

/-- Forward projection of the sea scene's vertex shader (`vert`),
restricted to ground-plane tile points (`Y = 0`: zero wave, ripple and
hover displacement), with the scene's uniform constants
`uCamH = 80·DPR`, `uPitch = -0.15`, `uFov = 1.2`, `uZPush = -50`,
`uTileW = 900`, `uTileD = 1200`:
tile → world → pitch rotation → zPush → perspective divide.
Returns `gl_Position`'s `(x, y) = (-ndcX, ndcY)`. -/
noncomputable def seaForward (DPR aspect u v : ℝ) : ℝ × ℝ :=
  let X := (u - 0.5) * 900
  let Z := v * 1200
  let cy := 0 - 80 * DPR
  let r := rot2 (cy, Z) (-0.15)
  let y2 := r.1
  let z2 := r.2 + (-50)
  let f := 1 / Real.tan (1.2 * 0.5)
  let ndcX := (X * f / aspect) / max z2 0.1
  let ndcY := (y2 * f) / max z2 0.1
  (-ndcX, ndcY)

/-- The rasterizer's NDC→viewport map combined with the browser's client
coordinates: an NDC point `(x, y)` appears at the screen fractions
`((x + 1) / 2` from the left, `(1 - y) / 2` from the top) of the canvas
rect. -/
noncomputable def ndcToScreen (p : ℝ × ℝ) : ℝ × ℝ :=
  ((p.1 + 1) / 2, (1 - p.2) / 2)

/-- JavaScript's `a % 1` (truncated fmod: the result has the sign of the
dividend). -/
noncomputable def jsmodOne (x : ℝ) : ℝ :=
  if 0 ≤ x then Int.fract x else -Int.fract (-x)

/-- `((a % 1) + 1) % 1`: the wrap of a world coordinate into `[0, 1)`
used at the end of `screenToWorldTile` / `screenToSeaTile`. -/
noncomputable def wrap01 (x : ℝ) : ℝ := jsmodOne (jsmodOne x + 1)

/-- The y component of the pitch-rotated camera ray built by
`screenToWorldTile` (the quantity tested by the `dir.y >= 0` horizon
guard), for a client y at screen fraction `sy` from the top. -/
noncomputable def unprojectDirY (pitch sy : ℝ) : ℝ :=
  let ny := sy * 2 - 1
  let f := 1 / Real.tan (1.2 * 0.5)
  Real.cos pitch * (-ny / f) - Real.sin pitch * 1

/-- `screenToWorldTile(clientX, clientY)` of the sea scene (the pointer
pick), taking the client position as the screen fractions `sx` (from the
left edge of the canvas rect) and `sy` (from the top).  `pitch` is the
scene's mutable look pitch, initially `0.15`; `fov = 1.2`,
`camH = 80·DPR`, `zPush = -50`, `tileW = 900`, `tileD = 1200`. -/
noncomputable def screenToWorldTile (DPR aspect pitch sx sy : ℝ) : ℝ × ℝ :=
  let nx := -(sx * 2 - 1)
  let f := 1 / Real.tan (1.2 * 0.5)
  let camH := 80 * DPR
  let dx := nx * aspect / f
  let y2 := unprojectDirY pitch sy
  let z2 := Real.sin pitch * (-(sy * 2 - 1) / f) + Real.cos pitch * 1
  if 0 ≤ y2 then (0.5, 0.5)
  else
    let t := -camH / y2
    let hitX := 0 + dx * t
    let hitZ := 50 + z2 * t
    (wrap01 (hitX / 900 + 0.5), wrap01 (hitZ / 1200))

/-- The y component of the pitch-rotated camera ray built by the
sky-and-sea scene's `screenToSeaTile`: the screen fraction `sy` is first
remapped from the sea region `[horizonY, 1]` (`horizonY = 0.35`) to
`[0, 1]`, and the scene's pitch is the constant `0.18`. -/
noncomputable def seaTileDirY (sy : ℝ) : ℝ :=
  let seaY := (sy - 0.35) / (1 - 0.35)
  let ny := seaY * 2 - 1
  let f := 1 / Real.tan (1.2 * 0.5)
  Real.cos 0.18 * (-ny / f) - Real.sin 0.18 * 1

/-- `screenToSeaTile(clientX, clientY)` of the sky-and-sea scene:
identical ray construction with `pitch = 0.18`, `tileW = 1600`,
`tileD = 1200`, and the `sy → seaY` horizon remap. -/
noncomputable def screenToSeaTile (DPR aspect sx sy : ℝ) : ℝ × ℝ :=
  let nx := -(sx * 2 - 1)
  let seaY := (sy - 0.35) / (1 - 0.35)
  let f := 1 / Real.tan (1.2 * 0.5)
  let camH := 80 * DPR
  let dx := nx * aspect / f
  let y2 := seaTileDirY sy
  let z2 := Real.sin 0.18 * (-(seaY * 2 - 1) / f) + Real.cos 0.18 * 1
  if 0 ≤ y2 then (0.5, 0.5)
  else
    let t := -camH / y2
    let hitX := 0 + dx * t
    let hitZ := 50 + z2 * t
    (wrap01 (hitX / 1600 + 0.5), wrap01 (hitZ / 1200))

end Sea

namespace Conn

/-- `smoothstep(edge0, edge1, x)` as defined in the scenes. -/
noncomputable def smoothstep (edge0 edge1 x : ℝ) : ℝ :=
  let t := max 0 (min 1 ((x - edge0) / (edge1 - edge0)))
  t * t * (3 - 2 * t)

/-- The boundary fade of a particle in the constellation scene:
`smoothstep(0, EDGE_MARGIN, Math.min(p.x, 1 - p.x, p.y, 1 - p.y))`
with `EDGE_MARGIN = 0.05`. -/
noncomputable def edgeFade (m : ℝ) (p : ℝ × ℝ) : ℝ :=
  smoothstep 0 m (min (min (min p.1 (1 - p.1)) p.2) (1 - p.2))

/-- The boundary fade of a particle in the sky scene:
`smoothstep(0, SKY_EDGE_MARGIN, Math.min(p.x, 1 - p.x, p.y, horizonY - p.y))`
with `SKY_EDGE_MARGIN = 0.03` and `horizonY = 0.35`. -/
noncomputable def skyEdgeFade (m horizonY : ℝ) (p : ℝ × ℝ) : ℝ :=
  smoothstep 0 m (min (min (min p.1 (1 - p.1)) p.2) (horizonY - p.2))

/-- An emitted connection `{ i, j, alpha }`. -/
structure Edge where
  i : ℕ
  j : ℕ
  alpha : ℝ

/-- The spatial hash rebuilt each frame from the particle positions:
`clear()` followed by `insert(i, particles[i].x, particles[i].y)` for
each index, with `cellSize = connectionDistance`. -/
noncomputable def particleHash (connDist : ℝ) (ps : List (ℝ × ℝ)) : SpatialHash.Grid :=
  SpatialHash.insertAll connDist SpatialHash.clear
    (ps.enum.map fun pr => (pr.1, pr.2.1, pr.2.2))

/-- The inner `for (const j of neighbors)` loop of the connection
builder, threading the accumulated `(connections, seen)` state: skip
`j <= i`, skip seen keys, record the key, and when the true Euclidean
distance is below `connDist` push the edge
`{i, j, (1 - dist/connDist) * min(pAlpha, qAlpha)}`, stopping as soon as
the edge count reaches `maxC`. -/
noncomputable def innerLoop (ps : List (ℝ × ℝ)) (connDist : ℝ) (maxC : ℕ)
    (fade : ℝ × ℝ → ℝ) (i : ℕ) (p : ℝ × ℝ) :
    List ℕ → List Edge × List (ℕ × ℕ) → List Edge × List (ℕ × ℕ)
  | [], st => st
  | j :: rest, st =>
    if j ≤ i then innerLoop ps connDist maxC fade i p rest st
    else if (i, j) ∈ st.2 then innerLoop ps connDist maxC fade i p rest st
    else
      let seen2 := st.2 ++ [(i, j)]
      let q := ps.getD j (0, 0)
      let dist := Real.sqrt ((q.1 - p.1) * (q.1 - p.1) + (q.2 - p.2) * (q.2 - p.2))
      if dist < connDist then
        let alpha := 1 - dist / connDist
        let pA := fade p
        let qA := fade q
        let st2 := (st.1 ++ [⟨i, j, alpha * min pA qA⟩], seen2)
        if maxC ≤ st2.1.length then st2
        else innerLoop ps connDist maxC fade i p rest st2
      else innerLoop ps connDist maxC fade i p rest (st.1, seen2)

/-- The outer `for (let i = 0; ...)` loop of the connection builder:
query the spatial hash at particle `i`, run the inner loop, and stop when
the edge count has reached `maxC`. -/
noncomputable def outerLoop (ps : List (ℝ × ℝ)) (connDist : ℝ) (maxC : ℕ)
    (fade : ℝ × ℝ → ℝ) :
    List ℕ → List Edge × List (ℕ × ℕ) → List Edge × List (ℕ × ℕ)
  | [], st => st
  | i :: rest, st =>
    let p := ps.getD i (0, 0)
    let nbrs := SpatialHash.getPotentialNeighbors connDist (particleHash connDist ps) p.1 p.2
    let st2 := innerLoop ps connDist maxC fade i p nbrs st
    if maxC ≤ st2.1.length then st2
    else outerLoop ps connDist maxC fade rest st2

/-- The per-frame connection builder: iterate over all particle indices
with empty initial `connections` and `seen` state and return the emitted
edge list.  `fade` is the scene's boundary-fade of a particle:
`edgeFade 0.05` for the constellation scene, `skyEdgeFade 0.03 0.35`
for the sky scene. -/
noncomputable def buildConnections (ps : List (ℝ × ℝ)) (connDist : ℝ) (maxC : ℕ)
    (fade : ℝ × ℝ → ℝ) : List Edge :=
  (outerLoop ps connDist maxC fade (List.range ps.length) ([], [])).1

end Conn

section WrapTheorems

lemma wrapSoft_mem (m x : ℚ) (hm : 0 ≤ m) :
    -m ≤ wrapSoft m x ∧ wrapSoft m x ≤ 1 + m := by
  simp only [wrapSoft]
  split_ifs <;> constructor <;> linarith

lemma wrapHard_mem (x : ℚ) : 0 ≤ wrapHard x ∧ wrapHard x ≤ 1 := by
  simp only [wrapHard]
  split_ifs <;> constructor <;> linarith

/-- C5.  Positions stay in the wrap margin: after the boundary policy of
a frame runs on an arbitrary pre-wrap position, the result lies in
`[-EDGE_MARGIN, 1+EDGE_MARGIN]²` for the soft-margin scenes
(`EDGE_MARGIN = 0.05` for the constellation scene, `0.1` for the gravity
scene) and in `[0, 1]²` for the flow-field scene's hard wrap — for every
pre-wrap position (hence for every pre-wrap velocity). -/
theorem boundary_policy_bounds (p : ℚ × ℚ) :
    (-0.05 ≤ (wrapSoftPoint 0.05 p).1 ∧ (wrapSoftPoint 0.05 p).1 ≤ 1 + 0.05 ∧
      -0.05 ≤ (wrapSoftPoint 0.05 p).2 ∧ (wrapSoftPoint 0.05 p).2 ≤ 1 + 0.05) ∧
    (-0.1 ≤ (wrapSoftPoint 0.1 p).1 ∧ (wrapSoftPoint 0.1 p).1 ≤ 1 + 0.1 ∧
      -0.1 ≤ (wrapSoftPoint 0.1 p).2 ∧ (wrapSoftPoint 0.1 p).2 ≤ 1 + 0.1) ∧
    (0 ≤ (wrapHardPoint p).1 ∧ (wrapHardPoint p).1 ≤ 1 ∧
      0 ≤ (wrapHardPoint p).2 ∧ (wrapHardPoint p).2 ≤ 1) := by
  have h5x := wrapSoft_mem 0.05 p.1 (by norm_num)
  have h5y := wrapSoft_mem 0.05 p.2 (by norm_num)
  have h1x := wrapSoft_mem 0.1 p.1 (by norm_num)
  have h1y := wrapSoft_mem 0.1 p.2 (by norm_num)
  have hhx := wrapHard_mem p.1
  have hhy := wrapHard_mem p.2
  exact ⟨⟨h5x.1, h5x.2, h5y.1, h5y.2⟩, ⟨h1x.1, h1x.2, h1y.1, h1y.2⟩,
    ⟨hhx.1, hhx.2, hhy.1, hhy.2⟩⟩

end WrapTheorems

section NoiseDeterminism

/-- C6.  Noise determinism as a two-run property: constructing two
`SimplexNoise` instances from the same seed yields identical permutation
and gradient tables (the constructor is a pure function of the seed), so
`noise3D` agrees on them at every input; and a `noise3D` call leaves the
instance unchanged (the method only reads the tables), so repeated calls
with the same input return the same value. -/
theorem noise3D_deterministic (seed₁ seed₂ : ℕ) (h : seed₁ = seed₂) (x y z : ℚ) :
    SimplexNoise.mk seed₁ = SimplexNoise.mk seed₂ ∧
    SimplexNoise.noise3D (SimplexNoise.mk seed₁) x y z =
      SimplexNoise.noise3D (SimplexNoise.mk seed₂) x y z ∧
    (SimplexNoise.noise3DCall (SimplexNoise.mk seed₁) (x, y, z)).2 = SimplexNoise.mk seed₁ ∧
    (SimplexNoise.noise3DCall
        (SimplexNoise.noise3DCall (SimplexNoise.mk seed₁) (x, y, z)).2 (x, y, z)).1 =
      (SimplexNoise.noise3DCall (SimplexNoise.mk seed₁) (x, y, z)).1 := by
  subst h
  exact ⟨rfl, rfl, rfl, rfl⟩

/-- Witness for C6 at the sea scene's seed `12345` and a concrete input. -/
theorem noise3D_deterministic_witness :
    SimplexNoise.mk 12345 = SimplexNoise.mk 12345 :=
  (noise3D_deterministic 12345 12345 rfl 1 2 3).1

end NoiseDeterminism

namespace SimplexNoise

lemma getD_lt_of_forall {p : List ℕ} (h : ∀ v ∈ p, v < 256) (n : ℕ) :
    p.getD n 0 < 256 := by
  by_cases hn : n < p.length
  · rw [List.getD_eq_getElem p 0 hn]
    exact h _ (List.getElem_mem hn)
  · rw [List.getD_eq_default p 0 (le_of_not_lt hn)]
    norm_num

lemma shuffleStep_preserves {st : ℕ × List ℕ} (i : ℕ)
    (h : ∀ v ∈ st.2, v < 256) : ∀ v ∈ (shuffleStep st i).2, v < 256 := by
  intro v hv
  unfold shuffleStep at hv
  simp only at hv
  rcases List.mem_or_eq_of_mem_set hv with hv' | hv'
  · rcases List.mem_or_eq_of_mem_set hv' with hv'' | hv''
    · exact h v hv''
    · subst hv''
      exact getD_lt_of_forall h _
  · subst hv'
    exact getD_lt_of_forall h _

lemma shuffledP_lt (seed : ℕ) : ∀ v ∈ shuffledP seed, v < 256 := by
  have key : ∀ (l : List ℕ) (st : ℕ × List ℕ), (∀ v ∈ st.2, v < 256) →
      ∀ v ∈ (l.foldl shuffleStep st).2, v < 256 := by
    intro l
    induction l with
    | nil => intro st h; exact h
    | cons a l ih =>
      intro st h
      exact ih _ (shuffleStep_preserves a h)
  have h0 : ∀ v ∈ (List.range 256), v < 256 := fun v hv => List.mem_range.mp hv
  exact key shuffleIdxs (seed, List.range 256) h0

lemma permAt_le (seed : ℕ) (n : ℕ) : permAt (mk seed) n ≤ 255 := by
  show (permList seed).getD n 0 ≤ 255
  have hlen : (permList seed).length = 512 := by
    unfold permList
    rw [List.length_map, List.length_range]
  by_cases hn : n < 512
  · have hn2 : n < (permList seed).length := by omega
    have hval : (permList seed).getD n 0 = (shuffledP seed).getD (n % 256) 0 := by
      rw [List.getD_eq_getElem _ 0 hn2]
      unfold permList
      simp only [List.getElem_map, List.getElem_range]
    rw [hval]
    have := getD_lt_of_forall (shuffledP_lt seed) (n % 256)
    omega
  · rw [List.getD_eq_default _ 0 (by omega)]
    norm_num

lemma maskedCell_le (x y z : ℚ) :
    (maskedCell x y z).1 ≤ 255 ∧ (maskedCell x y z).2.1 ≤ 255 ∧
      (maskedCell x y z).2.2 ≤ 255 := by
  unfold maskedCell
  have h : ∀ i : ℤ, (i % 256).toNat ≤ 255 := by
    intro i
    have h1 : 0 ≤ i % 256 := Int.emod_nonneg i (by norm_num)
    have h2 : i % 256 < 256 := Int.emod_lt_of_pos i (by norm_num)
    omega
  exact ⟨h _, h _, h _⟩

lemma simplexCorners_le (x0 y0 z0 : ℚ) :
    (simplexCorners x0 y0 z0).1.1 ≤ 1 ∧ (simplexCorners x0 y0 z0).1.2.1 ≤ 1 ∧
      (simplexCorners x0 y0 z0).1.2.2 ≤ 1 ∧ (simplexCorners x0 y0 z0).2.1 ≤ 1 ∧
      (simplexCorners x0 y0 z0).2.2.1 ≤ 1 ∧ (simplexCorners x0 y0 z0).2.2.2 ≤ 1 := by
  unfold simplexCorners
  split_ifs <;> simp

end SimplexNoise

section NoiseBounds

open SimplexNoise

/-- C10.  Every table access inside `noise3D` is in bounds: the masked
lattice indices `ii`, `jj`, `kk` lie in `[0, 255]`, every entry of the
length-512 `perm` table is at most `255`, and therefore each of the four
gradient-lookup indices `ii + i? + perm[jj + j? + perm[kk + k?]]` (with
corner offsets at most 1), as well as every intermediate `perm` index,
is at most `511` — `noise3D` never reads outside the duplicated
tables. -/
theorem noise3D_table_indices_in_bounds (seed : ℕ) (x y z : ℚ) :
    (∀ n : ℕ, permAt (mk seed) n ≤ 255) ∧
    (maskedCell x y z).1 ≤ 255 ∧
    (maskedCell x y z).2.1 ≤ 255 ∧
    (maskedCell x y z).2.2 ≤ 255 ∧
    giIndex0 (mk seed) x y z < 512 ∧
    giIndex1 (mk seed) x y z < 512 ∧
    giIndex2 (mk seed) x y z < 512 ∧
    giIndex3 (mk seed) x y z < 512 ∧
    (maskedCell x y z).2.2 + ((simplexCorners (cellOffset x y z).1 (cellOffset x y z).2.1
        (cellOffset x y z).2.2).1).2.2 < 512 ∧
    (maskedCell x y z).2.1 + ((simplexCorners (cellOffset x y z).1 (cellOffset x y z).2.1
        (cellOffset x y z).2.2).1).2.1 +
      permAt (mk seed) ((maskedCell x y z).2.2 +
        ((simplexCorners (cellOffset x y z).1 (cellOffset x y z).2.1
          (cellOffset x y z).2.2).1).2.2) < 512 ∧
    (maskedCell x y z).2.2 + ((simplexCorners (cellOffset x y z).1 (cellOffset x y z).2.1
        (cellOffset x y z).2.2).2).2.2 < 512 ∧
    (maskedCell x y z).2.1 + ((simplexCorners (cellOffset x y z).1 (cellOffset x y z).2.1
        (cellOffset x y z).2.2).2).2.1 +
      permAt (mk seed) ((maskedCell x y z).2.2 +
        ((simplexCorners (cellOffset x y z).1 (cellOffset x y z).2.1
          (cellOffset x y z).2.2).2).2.2) < 512 := by
  have hperm := permAt_le seed
  have hmask := maskedCell_le x y z
  have hcorn := simplexCorners_le (cellOffset x y z).1 (cellOffset x y z).2.1
    (cellOffset x y z).2.2
  refine ⟨hperm, hmask.1, hmask.2.1, hmask.2.2, ?_, ?_, ?_, ?_, ?_, ?_, ?_, ?_⟩
  · unfold giIndex0
    have := hperm ((maskedCell x y z).2.1 + permAt (mk seed) (maskedCell x y z).2.2)
    omega
  · unfold giIndex1
    have := hperm ((maskedCell x y z).2.1 +
      ((simplexCorners (cellOffset x y z).1 (cellOffset x y z).2.1
        (cellOffset x y z).2.2).1).2.1 +
      permAt (mk seed) ((maskedCell x y z).2.2 +
        ((simplexCorners (cellOffset x y z).1 (cellOffset x y z).2.1
          (cellOffset x y z).2.2).1).2.2))
    omega
  · unfold giIndex2
    have := hperm ((maskedCell x y z).2.1 +
      ((simplexCorners (cellOffset x y z).1 (cellOffset x y z).2.1
        (cellOffset x y z).2.2).2).2.1 +
      permAt (mk seed) ((maskedCell x y z).2.2 +
        ((simplexCorners (cellOffset x y z).1 (cellOffset x y z).2.1
          (cellOffset x y z).2.2).2).2.2))
    omega
  · unfold giIndex3
    have := hperm ((maskedCell x y z).2.1 + 1 + permAt (mk seed) ((maskedCell x y z).2.2 + 1))
    omega
  · omega
  · have := hperm ((maskedCell x y z).2.2 +
      ((simplexCorners (cellOffset x y z).1 (cellOffset x y z).2.1
        (cellOffset x y z).2.2).1).2.2)
    omega
  · omega
  · have := hperm ((maskedCell x y z).2.2 +
      ((simplexCorners (cellOffset x y z).1 (cellOffset x y z).2.1
        (cellOffset x y z).2.2).2).2.2)
    omega

end NoiseBounds


namespace SpatialHash

section

variable {α : Type} [LinearOrderedField α] [FloorRing α]

lemma mem_insert_self (cellSize : α) (g : Grid) (index : ℕ) (x y : α) :
    index ∈ insert cellSize g index x y (cellKey cellSize x y) := by
  unfold insert
  simp

lemma mem_insert_of_mem (cellSize : α) (g : Grid) (i index : ℕ) (x y : α) (k : ℤ × ℤ)
    (h : index ∈ g k) : index ∈ insert cellSize g i x y k := by
  unfold insert
  split_ifs <;> simp [h]

lemma mem_insertAll_of_mem (cellSize : α) (items : List (ℕ × α × α)) (g : Grid)
    (index : ℕ) (k : ℤ × ℤ) (h : index ∈ g k) :
    index ∈ insertAll cellSize g items k := by
  induction items generalizing g with
  | nil => exact h
  | cons it rest ih =>
    exact ih _ (mem_insert_of_mem cellSize g it.1 index it.2.1 it.2.2 k h)

lemma mem_insertAll (cellSize : α) (items : List (ℕ × α × α))
    (index : ℕ) (x y : α) :
    ∀ g : Grid, (index, x, y) ∈ items →
      index ∈ insertAll cellSize g items (cellKey cellSize x y) := by
  induction items with
  | nil => intro g h; cases h
  | cons it rest ih =>
    intro g h
    rcases List.mem_cons.mp h with h1 | h1
    · subst h1
      exact mem_insertAll_of_mem cellSize rest _ index _ (mem_insert_self cellSize g index x y)
    · exact ih _ h1

lemma mem_getPotentialNeighbors (cellSize : α) (g : Grid) (qx qy : α) (index : ℕ)
    (k : ℤ × ℤ) (hk : index ∈ g k)
    (h1 : (cellKey cellSize qx qy).1 - 1 ≤ k.1) (h2 : k.1 ≤ (cellKey cellSize qx qy).1 + 1)
    (h3 : (cellKey cellSize qx qy).2 - 1 ≤ k.2) (h4 : k.2 ≤ (cellKey cellSize qx qy).2 + 1) :
    index ∈ getPotentialNeighbors cellSize g qx qy := by
  unfold getPotentialNeighbors
  simp only [List.mem_flatMap]
  refine ⟨k.1 - (cellKey cellSize qx qy).1, by simp; omega,
    k.2 - (cellKey cellSize qx qy).2, by simp; omega, ?_⟩
  have e1 : (cellKey cellSize qx qy).1 + (k.1 - (cellKey cellSize qx qy).1) = k.1 := by ring
  have e2 : (cellKey cellSize qx qy).2 + (k.2 - (cellKey cellSize qx qy).2) = k.2 := by ring
  rw [e1, e2]
  exact hk

end

end SpatialHash

section SpatialHashTheorems

lemma floor_div_adjacent {c a b : ℚ} (hc : 0 < c) (h1 : a - b < c) (h2 : b - a < c) :
    ⌊b / c⌋ - 1 ≤ ⌊a / c⌋ ∧ ⌊a / c⌋ ≤ ⌊b / c⌋ + 1 := by
  have ha : a / c < b / c + 1 := by
    have h : a / c < (b + c) / c := (div_lt_div_iff_of_pos_right hc).mpr (by linarith)
    rwa [add_div, div_self (ne_of_gt hc)] at h
  have hb : b / c < a / c + 1 := by
    have h : b / c < (a + c) / c := (div_lt_div_iff_of_pos_right hc).mpr (by linarith)
    rwa [add_div, div_self (ne_of_gt hc)] at h
  constructor
  · have := Int.floor_le_floor hb.le
    rw [Int.floor_add_one] at this
    omega
  · have := Int.floor_le_floor ha.le
    rw [Int.floor_add_one] at this
    omega

/-- C3.  The spatial index never misses a true neighbor: after a
`clear()` and any sequence of `insert(id, x, y)` calls, every inserted
id whose Euclidean distance to the query point is less than `cellSize`
(equivalently, whose squared distance is below `cellSize²`) appears in
the list returned by `getPotentialNeighbors` at the query point; and a
query against a grid with nothing inserted returns the empty list. -/
theorem spatialHash_never_misses (cellSize : ℚ) (hc : 0 < cellSize)
    (items : List (ℕ × ℚ × ℚ)) (index : ℕ) (x y qx qy : ℚ)
    (hmem : (index, x, y) ∈ items)
    (hdist : (x - qx) * (x - qx) + (y - qy) * (y - qy) < cellSize * cellSize) :
    index ∈ SpatialHash.getPotentialNeighbors cellSize
      (SpatialHash.insertAll cellSize SpatialHash.clear items) qx qy ∧
    SpatialHash.getPotentialNeighbors cellSize SpatialHash.clear qx qy = [] := by
  constructor
  · have hx1 : x - qx < cellSize := by nlinarith [mul_self_nonneg (y - qy), mul_self_nonneg (x - qx + cellSize)]
    have hx2 : qx - x < cellSize := by nlinarith [mul_self_nonneg (y - qy), mul_self_nonneg (x - qx - cellSize)]
    have hy1 : y - qy < cellSize := by nlinarith [mul_self_nonneg (x - qx), mul_self_nonneg (y - qy + cellSize)]
    have hy2 : qy - y < cellSize := by nlinarith [mul_self_nonneg (x - qx), mul_self_nonneg (y - qy - cellSize)]
    have hfx := floor_div_adjacent hc hx1 hx2
    have hfy := floor_div_adjacent hc hy1 hy2
    refine SpatialHash.mem_getPotentialNeighbors cellSize _ qx qy index
      (SpatialHash.cellKey cellSize x y)
      (SpatialHash.mem_insertAll cellSize items index x y _ hmem) ?_ ?_ ?_ ?_ <;>
      simp only [SpatialHash.cellKey] <;> omega
  · unfold SpatialHash.getPotentialNeighbors SpatialHash.clear
    simp

/-- Witness for C3: a single insert at the origin, queried from a point
at distance `1/100 < cellSize = 1/10`; the inserted id `7` is among the
returned candidates. -/
theorem spatialHash_never_misses_witness :
    7 ∈ SpatialHash.getPotentialNeighbors (1/10 : ℚ)
      (SpatialHash.insertAll (1/10 : ℚ) SpatialHash.clear [(7, 0, 0)]) (1/100) 0 :=
  (spatialHash_never_misses (1/10) (by norm_num) [(7, 0, 0)] 7 0 0 (1/100) 0
    (by simp) (by norm_num)).1

end SpatialHashTheorems

section VortexTheorems

open Flow

/-- C7 (counterexample).  The claim "zero when `d > R`, otherwise
magnitude `(1-(d/R)²)·vortexStrength`" fails inside the guard's inner
dead zone: at distance `0.005 < 0.01` from the pointer (with the scene's
`R = 0.2`, `S = 0.006`) the function returns the zero vector although the
claimed magnitude `(1-(0.005/0.2)²)·0.006` is nonzero. -/
theorem getVortexVelocity_deadzone_counterexample :
    Flow.getVortexVelocity 0.2 0.006 0.5 0.5 0.5 0.505 = (0, 0) ∧
    Flow.pointerDist 0.5 0.5 0.5 0.505 ≤ 0.2 ∧
    (1 - Flow.pointerDist 0.5 0.5 0.5 0.505 / 0.2 *
      (Flow.pointerDist 0.5 0.5 0.5 0.505 / 0.2)) * 0.006 ≠ 0 := by
  have hd : Flow.pointerDist 0.5 0.5 0.5 0.505 = 0.005 := by
    unfold Flow.pointerDist
    rw [show ((0.5:ℝ) - 0.5) * (0.5 - 0.5) + (0.5 - 0.505) * (0.5 - 0.505)
      = 0.005 * 0.005 by norm_num]
    exact Real.sqrt_mul_self (by norm_num)
  refine ⟨?_, ?_, ?_⟩
  · simp only [Flow.getVortexVelocity]
    rw [hd]
    rw [if_pos (by norm_num : (0.2:ℝ) < 0.005 ∨ (0.005:ℝ) < 0.01)]
  · rw [hd]; norm_num
  · rw [hd]; norm_num

/-- C7 (amended).  Vortex force shape, with the inner dead-zone guard the
code actually has: the returned vector is zero whenever the particle is
farther than the configured radius from the pointer **or closer than
`0.01`**; for `0.01 ≤ d ≤ R` it is perpendicular to the
particle-to-pointer radial direction — it is the radial unit vector from
the pointer rotated 90° counter-clockwise — with magnitude
`(1 - (d/R)²) · vortexStrength`. -/
theorem getVortexVelocity_shape (R S px py mx my : ℝ) (hS : 0 ≤ S)
    (h1 : 0.01 ≤ Flow.pointerDist px py mx my)
    (h2 : Flow.pointerDist px py mx my ≤ R) :
    (Flow.getVortexVelocity R S px py mx my).1 * (mx - px) +
      (Flow.getVortexVelocity R S px py mx my).2 * (my - py) = 0 ∧
    Flow.getVortexVelocity R S px py mx my =
      (-(py - my) / Flow.pointerDist px py mx my *
        ((1 - Flow.pointerDist px py mx my / R * (Flow.pointerDist px py mx my / R)) * S),
       (px - mx) / Flow.pointerDist px py mx my *
        ((1 - Flow.pointerDist px py mx my / R * (Flow.pointerDist px py mx my / R)) * S)) ∧
    Real.sqrt ((Flow.getVortexVelocity R S px py mx my).1 *
        (Flow.getVortexVelocity R S px py mx my).1 +
      (Flow.getVortexVelocity R S px py mx my).2 *
        (Flow.getVortexVelocity R S px py mx my).2) =
      (1 - Flow.pointerDist px py mx my / R * (Flow.pointerDist px py mx my / R)) * S ∧
    (∀ qx qy nx ny, R < Flow.pointerDist qx qy nx ny →
      Flow.getVortexVelocity R S qx qy nx ny = (0, 0)) := by
  have hdpos : 0 < Flow.pointerDist px py mx my := by linarith
  have hRpos : 0 < R := lt_of_lt_of_le hdpos h2
  have hd2 : Flow.pointerDist px py mx my * Flow.pointerDist px py mx my
      = (px - mx) * (px - mx) + (py - my) * (py - my) := by
    unfold Flow.pointerDist
    exact Real.mul_self_sqrt
      (add_nonneg (mul_self_nonneg (px - mx)) (mul_self_nonneg (py - my)))
  have hcond : ¬(R < Flow.pointerDist px py mx my ∨ Flow.pointerDist px py mx my < 0.01) := by
    push_neg
    exact ⟨h2, h1⟩
  have hval : Flow.getVortexVelocity R S px py mx my =
      (-(py - my) / Flow.pointerDist px py mx my *
        ((1 - Flow.pointerDist px py mx my / R * (Flow.pointerDist px py mx my / R)) * S),
       (px - mx) / Flow.pointerDist px py mx my *
        ((1 - Flow.pointerDist px py mx my / R * (Flow.pointerDist px py mx my / R)) * S)) := by
    simp only [Flow.getVortexVelocity]
    rw [if_neg hcond]
  have hsnn : 0 ≤ (1 - Flow.pointerDist px py mx my / R *
      (Flow.pointerDist px py mx my / R)) * S := by
    have : Flow.pointerDist px py mx my / R ≤ 1 := (div_le_one hRpos).mpr h2
    have h0 : 0 ≤ Flow.pointerDist px py mx my / R := by positivity
    have : Flow.pointerDist px py mx my / R * (Flow.pointerDist px py mx my / R) ≤ 1 := by
      nlinarith
    exact mul_nonneg (by linarith) hS
  refine ⟨?_, hval, ?_, ?_⟩
  · rw [hval]
    ring
  · rw [hval]
    have hdne : Flow.pointerDist px py mx my ≠ 0 := ne_of_gt hdpos
    have hmag : -(py - my) / Flow.pointerDist px py mx my *
        ((1 - Flow.pointerDist px py mx my / R * (Flow.pointerDist px py mx my / R)) * S) *
        (-(py - my) / Flow.pointerDist px py mx my *
        ((1 - Flow.pointerDist px py mx my / R * (Flow.pointerDist px py mx my / R)) * S)) +
        (px - mx) / Flow.pointerDist px py mx my *
        ((1 - Flow.pointerDist px py mx my / R * (Flow.pointerDist px py mx my / R)) * S) *
        ((px - mx) / Flow.pointerDist px py mx my *
        ((1 - Flow.pointerDist px py mx my / R * (Flow.pointerDist px py mx my / R)) * S)) =
        ((1 - Flow.pointerDist px py mx my / R * (Flow.pointerDist px py mx my / R)) * S) *
        ((1 - Flow.pointerDist px py mx my / R * (Flow.pointerDist px py mx my / R)) * S) := by
      have expand : -(py - my) / Flow.pointerDist px py mx my *
          ((1 - Flow.pointerDist px py mx my / R * (Flow.pointerDist px py mx my / R)) * S) *
          (-(py - my) / Flow.pointerDist px py mx my *
          ((1 - Flow.pointerDist px py mx my / R * (Flow.pointerDist px py mx my / R)) * S)) +
          (px - mx) / Flow.pointerDist px py mx my *
          ((1 - Flow.pointerDist px py mx my / R * (Flow.pointerDist px py mx my / R)) * S) *
          ((px - mx) / Flow.pointerDist px py mx my *
          ((1 - Flow.pointerDist px py mx my / R * (Flow.pointerDist px py mx my / R)) * S)) =
          ((px - mx) * (px - mx) + (py - my) * (py - my)) /
            (Flow.pointerDist px py mx my * Flow.pointerDist px py mx my) *
          (((1 - Flow.pointerDist px py mx my / R * (Flow.pointerDist px py mx my / R)) * S) *
           ((1 - Flow.pointerDist px py mx my / R * (Flow.pointerDist px py mx my / R)) * S)) := by
        ring
      rw [expand, ← hd2, div_self (mul_ne_zero hdne hdne), one_mul]
    rw [hmag]
    exact Real.sqrt_mul_self hsnn
  · intro qx qy nx ny h
    simp only [Flow.getVortexVelocity]
    rw [if_pos (Or.inl h)]

/-- Witness for C7 at a point at distance `0.1` straight below the
pointer, with the scene constants `R = 0.2`, `S = 0.006`. -/
theorem getVortexVelocity_shape_witness :
    (Flow.getVortexVelocity 0.2 0.006 0.5 0.5 0.5 0.4).1 * (0.5 - 0.5) +
      (Flow.getVortexVelocity 0.2 0.006 0.5 0.5 0.5 0.4).2 * (0.4 - 0.5) = 0 := by
  have hd : Flow.pointerDist 0.5 0.5 0.5 0.4 = 0.1 := by
    unfold Flow.pointerDist
    rw [show ((0.5:ℝ) - 0.5) * (0.5 - 0.5) + (0.5 - 0.4) * (0.5 - 0.4)
      = 0.1 * 0.1 by norm_num]
    exact Real.sqrt_mul_self (by norm_num)
  exact (getVortexVelocity_shape 0.2 0.006 0.5 0.5 0.5 0.4 (by norm_num)
    (by rw [hd]; norm_num) (by rw [hd]; norm_num)).1

end VortexTheorems

section BlendTheorems

/-- C8.  Blend, not sum: in both scenes that combine a pointer force with
an ambient term, the combined contribution is a linear blend weighted by
pointer influence — the ambient term is multiplied by a weight that
decreases as influence rises (`1 - 0.8·influence` for the flow scene,
`1 - 0.7·influence` for the gravity scene); at the pointer position the
influence is `1` and the ambient contribution is scaled down to `0.2`
(resp. `0.3`) of itself rather than added at full strength, so for any
nonzero ambient term the blend differs from the plain sum. -/
theorem pointer_blend_suppresses_ambient :
    (∀ R S px py mx my vx vy : ℝ, Flow.blendFlowVortex R S px py mx my vx vy =
      (vx * Flow.ambientWeightFlow (Flow.vortexInfluence R px py mx my) +
        (Flow.getVortexVelocity R S px py mx my).1,
       vy * Flow.ambientWeightFlow (Flow.vortexInfluence R px py mx my) +
        (Flow.getVortexVelocity R S px py mx my).2)) ∧
    (∀ i₁ i₂ : ℝ, i₁ ≤ i₂ → Flow.ambientWeightFlow i₂ ≤ Flow.ambientWeightFlow i₁ ∧
      Gravity.ambientWeightGravity i₂ ≤ Gravity.ambientWeightGravity i₁) ∧
    (∀ R S px py vx vy : ℝ, Flow.vortexInfluence R px py px py = 1 ∧
      Flow.blendFlowVortex R S px py px py vx vy = (vx * 0.2, vy * 0.2)) ∧
    (∀ mouseRadius softening G mult px py axv ayv : ℝ, 0 < mouseRadius →
      Gravity.blendMouseGravity mouseRadius softening G mult px py px py axv ayv =
        (axv * 0.3, ayv * 0.3)) ∧
    (∀ a p : ℝ, a ≠ 0 → a * Flow.ambientWeightFlow 1 + p ≠ a + p ∧
      a * Gravity.ambientWeightGravity 1 + p ≠ a + p) := by
  have hdist0 : ∀ px py : ℝ, Flow.pointerDist px py px py = 0 := by
    intro px py
    unfold Flow.pointerDist
    simp
  refine ⟨fun R S px py mx my vx vy => rfl, ?_, ?_, ?_, ?_⟩
  · intro i₁ i₂ h
    unfold Flow.ambientWeightFlow Gravity.ambientWeightGravity
    constructor <;> nlinarith
  · intro R S px py vx vy
    have hinf : Flow.vortexInfluence R px py px py = 1 := by
      unfold Flow.vortexInfluence
      rw [hdist0, zero_div]
      norm_num
    refine ⟨hinf, ?_⟩
    have hvv : Flow.getVortexVelocity R S px py px py = (0, 0) := by
      simp only [Flow.getVortexVelocity]
      rw [if_pos (Or.inr (by rw [hdist0]; norm_num))]
    unfold Flow.blendFlowVortex
    rw [hinf, hvv]
    unfold Flow.ambientWeightFlow
    norm_num
  · intro mouseRadius softening G mult px py axv ayv hR
    unfold Gravity.blendMouseGravity
    rw [hdist0]
    rw [if_pos hR]
    unfold Gravity.calculateGravity
    simp only [sub_self, zero_div, zero_mul, mul_zero, add_zero, zero_add]
    unfold Gravity.ambientWeightGravity
    norm_num
  · intro a p ha
    unfold Flow.ambientWeightFlow Gravity.ambientWeightGravity
    constructor
    · intro h
      apply ha
      nlinarith [h]
    · intro h
      apply ha
      nlinarith [h]

/-- Witness for C8: at the pointer position with the gravity scene's
`mouseRadius = 0.3`, the ambient acceleration `(2, 2)` is scaled to
`(2·0.3, 2·0.3)`. -/
theorem pointer_blend_suppresses_ambient_witness :
    Gravity.blendMouseGravity 0.3 0.03 0.000008 6 0.5 0.5 0.5 0.5 2 2 = (2 * 0.3, 2 * 0.3) :=
  pointer_blend_suppresses_ambient.2.2.2.1 0.3 0.03 0.000008 6 0.5 0.5 2 2 (by norm_num)

end BlendTheorems

section UnprojectTheorems

lemma jsmodOne_mem (x : ℝ) : -1 < Sea.jsmodOne x ∧ Sea.jsmodOne x ≤ 0 ∨
    0 ≤ Sea.jsmodOne x ∧ Sea.jsmodOne x < 1 := by
  unfold Sea.jsmodOne
  split_ifs with h
  · exact Or.inr ⟨Int.fract_nonneg x, Int.fract_lt_one x⟩
  · left
    constructor
    · have := Int.fract_lt_one (-x)
      linarith
    · have := Int.fract_nonneg (-x)
      linarith

lemma wrap01_mem (x : ℝ) : 0 ≤ Sea.wrap01 x ∧ Sea.wrap01 x < 1 := by
  unfold Sea.wrap01
  rcases jsmodOne_mem x with ⟨h1, h2⟩ | ⟨h1, h2⟩
  · set v := Sea.jsmodOne x with hv
    have hpos : 0 ≤ v + 1 := by linarith
    unfold Sea.jsmodOne
    rw [if_pos hpos]
    by_cases hone : v + 1 < 1
    · rw [Int.fract_eq_self.mpr ⟨hpos, hone⟩]
      constructor <;> linarith
    · have : v + 1 = 1 := by linarith
      rw [this]
      rw [Int.fract_one]
      norm_num
  · set v := Sea.jsmodOne x with hv
    have hpos : 0 ≤ v + 1 := by linarith
    unfold Sea.jsmodOne
    rw [if_pos hpos]
    have : Int.fract (v + 1) = Int.fract v := by
      exact_mod_cast Int.fract_add_int v 1
    rw [this]
    exact ⟨Int.fract_nonneg v, Int.fract_lt_one v⟩

lemma wrap01_eq_self {x : ℝ} (h1 : 0 ≤ x) (h2 : x < 1) : Sea.wrap01 x = x := by
  unfold Sea.wrap01 Sea.jsmodOne
  rw [if_pos h1, Int.fract_eq_self.mpr ⟨h1, h2⟩, if_pos (by linarith : (0:ℝ) ≤ x + 1)]
  have : Int.fract (x + 1) = Int.fract x := by
    exact_mod_cast Int.fract_add_int x 1
  rw [this, Int.fract_eq_self.mpr ⟨h1, h2⟩]

/-- C9.  Unproject fallback and range: `screenToWorldTile` (and the
sky-and-sea scene's `screenToSeaTile`) always return a pair
`(u, v) ∈ [0,1)²`, and whenever the pitch-rotated camera ray fails to
point down toward the ground plane (`dir.y ≥ 0`) they return the domain
center `(0.5, 0.5)` by the guard, without evaluating the plane
intersection — in real arithmetic no division by the degenerate `dir.y`
is ever performed, so no undefined value is produced. -/
theorem screenToWorldTile_range_and_fallback (DPR aspect pitch sx sy : ℝ) :
    (0 ≤ (Sea.screenToWorldTile DPR aspect pitch sx sy).1 ∧
      (Sea.screenToWorldTile DPR aspect pitch sx sy).1 < 1 ∧
      0 ≤ (Sea.screenToWorldTile DPR aspect pitch sx sy).2 ∧
      (Sea.screenToWorldTile DPR aspect pitch sx sy).2 < 1) ∧
    (0 ≤ Sea.unprojectDirY pitch sy →
      Sea.screenToWorldTile DPR aspect pitch sx sy = (0.5, 0.5)) ∧
    (0 ≤ (Sea.screenToSeaTile DPR aspect sx sy).1 ∧
      (Sea.screenToSeaTile DPR aspect sx sy).1 < 1 ∧
      0 ≤ (Sea.screenToSeaTile DPR aspect sx sy).2 ∧
      (Sea.screenToSeaTile DPR aspect sx sy).2 < 1) ∧
    (0 ≤ Sea.seaTileDirY sy → Sea.screenToSeaTile DPR aspect sx sy = (0.5, 0.5)) := by
  refine ⟨?_, ?_, ?_, ?_⟩
  · simp only [Sea.screenToWorldTile]
    split_ifs with h
    · norm_num
    · exact ⟨(wrap01_mem _).1, (wrap01_mem _).2, (wrap01_mem _).1, (wrap01_mem _).2⟩
  · intro h
    simp only [Sea.screenToWorldTile]
    rw [if_pos h]
  · simp only [Sea.screenToSeaTile]
    split_ifs with h
    · norm_num
    · exact ⟨(wrap01_mem _).1, (wrap01_mem _).2, (wrap01_mem _).1, (wrap01_mem _).2⟩
  · intro h
    simp only [Sea.screenToSeaTile]
    rw [if_pos h]

/-- Witness for C9: with pitch `0` and the pointer at the top edge of
the screen the ray points above the horizon, and the fallback center is
returned. -/
theorem screenToWorldTile_range_and_fallback_witness :
    Sea.screenToWorldTile 1 1 0 0.5 0 = (0.5, 0.5) := by
  have htan : 0 < Real.tan (1.2 * 0.5) := by
    rw [show (1.2 * 0.5 : ℝ) = 0.6 by norm_num]
    apply Real.tan_pos_of_pos_of_lt_pi_div_two (by norm_num)
    have := Real.pi_gt_three
    linarith
  refine (screenToWorldTile_range_and_fallback 1 1 0 0.5 0).2.1 ?_
  unfold Sea.unprojectDirY
  simp only [Real.cos_zero, Real.sin_zero]
  have : (-((0:ℝ) * 2 - 1) / (1 / Real.tan (1.2 * 0.5))) = Real.tan (1.2 * 0.5) := by
    rw [div_div_eq_mul_div, div_one]
    ring
  rw [this]
  nlinarith [htan]
end UnprojectTheorems

section RoundTripTheorems

open Sea

set_option maxHeartbeats 1000000 in
lemma seaRoundTrip_calc (s c T : ℝ)
    (hsin : Real.sin 0.15 = s) (hcos : Real.cos 0.15 = c)
    (hsinneg : Real.sin (-0.15) = -s) (hcosneg : Real.cos (-0.15) = c)
    (htan : Real.tan (1.2 * 0.5) = T)
    (hpy : s * s + c * c = 1) (h8 : 8/105 < s) (hs1 : s ≤ 1) (h0s : 0 < s)
    (hcge : (0.988:ℝ) ≤ c) (hT : 0 < T) :
    3/5 + 1/200 <
      (Sea.screenToWorldTile 1 (16/9) 0.15
        (Sea.ndcToScreen (Sea.seaForward 1 (16/9) (3/5) (1/5))).1
        (Sea.ndcToScreen (Sea.seaForward 1 (16/9) (3/5) (1/5))).2).1 := by
  have hTne : T ≠ 0 := ne_of_gt hT
  simp only [Sea.seaForward, Sea.rot2, Sea.ndcToScreen, Sea.screenToWorldTile,
    Sea.unprojectDirY, hsinneg, hcosneg, hsin, hcos, htan]
  have hz2pos : (0.1:ℝ) < 80*s + 240*c - 50 := by nlinarith
  have hmax : (-s * (0 - 80 * 1) + c * (1 / 5 * 1200) + -50) ⊔ 0.1 = 80*s + 240*c - 50 := by
    rw [show (-s * (0 - 80 * 1) + c * (1 / 5 * 1200) + -50) = 80*s + 240*c - 50 by ring]
    exact max_eq_left (le_of_lt hz2pos)
  rw [hmax]
  set z2 : ℝ := 80*s + 240*c - 50 with hz2def
  have hz2ne : z2 ≠ 0 := by rw [hz2def]; nlinarith
  have hdirY : c * (-((1 - (c * (0 - 80 * 1) - -s * (1 / 5 * 1200)) * (1 / T) / z2)/2*2 - 1)/(1/T)) - s * 1
      = (50*s - 80)/z2 := by
    have h1 : c * (-((1 - (c * (0 - 80 * 1) - -s * (1 / 5 * 1200)) * (1 / T) / z2)/2*2 - 1)/(1/T)) - s * 1
        = c * ((c * (0 - 80 * 1) - -s * (1 / 5 * 1200)) * (1 / T) / z2 * T) - s := by
      rw [div_div_eq_mul_div, div_one]
      ring
    have h2 : (c * (0 - 80 * 1) - -s * (1 / 5 * 1200)) * (1 / T) / z2 * T = (240*s - 80*c)/z2 := by
      field_simp
      ring
    rw [h1, h2]
    field_simp
    linear_combination (-80 : ℝ) * hpy - s * hz2def
  rw [hdirY]
  have hcond : ¬(0 ≤ (50*s - 80)/z2) := by
    apply not_le.mpr
    apply div_neg_of_neg_of_pos
    · linarith
    · rw [hz2def]; nlinarith
  rw [if_neg hcond]
  dsimp only
  have hU : (0 + -((-((3 / 5 - 0.5) * 900 * (1 / T) / (16 / 9) / z2) + 1) / 2 * 2 - 1) * (16 / 9) / (1 / T) *
        (-(80 * 1) / ((50 * s - 80) / z2))) / 900 + 0.5 = 8/(80 - 50*s) + 1/2 := by
    have h50 : (50*s - 80) ≠ 0 := by nlinarith
    have h50b : (80 - 50*s) ≠ 0 := by nlinarith
    field_simp
    ring
  rw [hU]
  have hden : (30:ℝ) ≤ 80 - 50*s := by linarith
  have hfrac_pos : (0:ℝ) < 8/(80 - 50*s) := by
    apply div_pos (by norm_num)
    linarith
  have hfrac_lt : 8/(80 - 50*s) < 1/2 := by
    rw [div_lt_iff₀ (by linarith)]
    linarith
  rw [wrap01_eq_self (by linarith) (by linarith)]
  rw [show (3/5 + 1/200 : ℝ) = 21/200 + 1/2 by norm_num]
  have : (21/200 : ℝ) < 8/(80 - 50*s) := by
    rw [lt_div_iff₀ (by linarith)]
    nlinarith
  linarith


/-- C1 (the claim fails on the code).  With the sea scene's constants
(`DPR = 1`, aspect `16/9`, camera height `80`, shader pitch `-0.15`,
unproject pitch `0.15`, fov `1.2`, zPush `-50`), forward-projecting the
ground-plane tile point `(3/5, 1/5)` through the vertex shader's chain
(tile → world → pitch rotation → zPush → perspective divide), mapping
the resulting clip position to screen fractions, and unprojecting with
`screenToWorldTile` yields a `u` coordinate greater than `3/5 + 1/200`:
the round trip misses the original tile point by more than `1/200`,
far beyond floating-point tolerance.  (Algebraically the recovered `u`
is `1/2 + (u - 1/2)·H/(H - 50·sin 0.15)` because `screenToWorldTile`
shifts the ray origin by `zPush` in world space without applying the
pitch rotation to that offset.) -/
theorem seaRoundTrip_fails :
    3/5 + 1/200 <
      (Sea.screenToWorldTile 1 (16/9) 0.15
        (Sea.ndcToScreen (Sea.seaForward 1 (16/9) (3/5) (1/5))).1
        (Sea.ndcToScreen (Sea.seaForward 1 (16/9) (3/5) (1/5))).2).1 := by
  have hpi := Real.pi_gt_three
  have hsinneg : Real.sin (-0.15) = -Real.sin 0.15 := by
    rw [show (-0.15 : ℝ) = -(0.15 : ℝ) by norm_num, Real.sin_neg]
  have hcosneg : Real.cos (-0.15) = Real.cos 0.15 := by
    rw [show (-0.15 : ℝ) = -(0.15 : ℝ) by norm_num, Real.cos_neg]
  have hpy : Real.sin 0.15 * Real.sin 0.15 + Real.cos 0.15 * Real.cos 0.15 = 1 := by
    have h := Real.sin_sq_add_cos_sq (0.15 : ℝ)
    linear_combination h
  have h8 : (8/105 : ℝ) < Real.sin 0.15 := by
    have h := Real.sin_gt_sub_cube (show (0:ℝ) < 0.15 by norm_num)
      (show (0.15:ℝ) ≤ 1 by norm_num)
    nlinarith [h]
  have hs1 : Real.sin 0.15 ≤ 1 := Real.sin_le_one _
  have h0s : (0:ℝ) < Real.sin 0.15 :=
    Real.sin_pos_of_pos_of_lt_pi (by norm_num) (by linarith)
  have hcge : (0.988 : ℝ) ≤ Real.cos 0.15 := by
    have h := Real.one_sub_sq_div_two_le_cos (x := (0.15 : ℝ))
    nlinarith [h]
  have hT : (0:ℝ) < Real.tan (1.2 * 0.5) := by
    rw [show (1.2 * 0.5 : ℝ) = 0.6 by norm_num]
    apply Real.tan_pos_of_pos_of_lt_pi_div_two (by norm_num)
    linarith
  exact seaRoundTrip_calc (Real.sin 0.15) (Real.cos 0.15) (Real.tan (1.2 * 0.5))
    rfl rfl hsinneg hcosneg rfl hpy h8 hs1 h0s hcge hT

end RoundTripTheorems

section ConnTheorems

namespace Conn

lemma innerLoop_sound (ps : List (ℝ × ℝ)) (connDist : ℝ) (maxC : ℕ)
    (fade : ℝ × ℝ → ℝ) (i : ℕ) (p : ℝ × ℝ) (hp : p = ps.getD i (0, 0)) :
    ∀ (nbrs : List ℕ) (st : List Edge × List (ℕ × ℕ)),
      (∀ e ∈ st.1, e.i < e.j ∧
        Real.sqrt (((ps.getD e.j (0, 0)).1 - (ps.getD e.i (0, 0)).1) *
            ((ps.getD e.j (0, 0)).1 - (ps.getD e.i (0, 0)).1) +
          ((ps.getD e.j (0, 0)).2 - (ps.getD e.i (0, 0)).2) *
            ((ps.getD e.j (0, 0)).2 - (ps.getD e.i (0, 0)).2)) < connDist ∧
        e.alpha = (1 - Real.sqrt (((ps.getD e.j (0, 0)).1 - (ps.getD e.i (0, 0)).1) *
            ((ps.getD e.j (0, 0)).1 - (ps.getD e.i (0, 0)).1) +
          ((ps.getD e.j (0, 0)).2 - (ps.getD e.i (0, 0)).2) *
            ((ps.getD e.j (0, 0)).2 - (ps.getD e.i (0, 0)).2)) / connDist) *
          min (fade (ps.getD e.i (0, 0))) (fade (ps.getD e.j (0, 0)))) →
      ∀ e ∈ (innerLoop ps connDist maxC fade i p nbrs st).1, e.i < e.j ∧
        Real.sqrt (((ps.getD e.j (0, 0)).1 - (ps.getD e.i (0, 0)).1) *
            ((ps.getD e.j (0, 0)).1 - (ps.getD e.i (0, 0)).1) +
          ((ps.getD e.j (0, 0)).2 - (ps.getD e.i (0, 0)).2) *
            ((ps.getD e.j (0, 0)).2 - (ps.getD e.i (0, 0)).2)) < connDist ∧
        e.alpha = (1 - Real.sqrt (((ps.getD e.j (0, 0)).1 - (ps.getD e.i (0, 0)).1) *
            ((ps.getD e.j (0, 0)).1 - (ps.getD e.i (0, 0)).1) +
          ((ps.getD e.j (0, 0)).2 - (ps.getD e.i (0, 0)).2) *
            ((ps.getD e.j (0, 0)).2 - (ps.getD e.i (0, 0)).2)) / connDist) *
          min (fade (ps.getD e.i (0, 0))) (fade (ps.getD e.j (0, 0))) := by
  intro nbrs
  induction nbrs with
  | nil =>
    intro st h e he
    simp only [innerLoop] at he
    exact h e he
  | cons j rest ih =>
    intro st h e he
    simp only [innerLoop] at he
    split_ifs at he with h1 h2 h3 h4
    · exact ih st h e he
    · exact ih st h e he
    · -- pushed an edge and hit the cap: result is st2
      dsimp only at he
      rcases List.mem_append.mp he with hmem | hmem
      · exact h e hmem
      · rcases List.mem_singleton.mp hmem with rfl
        refine ⟨by dsimp only; omega, ?_, ?_⟩
        · dsimp only
          rw [← hp]
          exact h3
        · dsimp only
          rw [← hp]
    · -- pushed an edge, below cap: recurse
      refine ih _ ?_ e he
      intro e2 he2
      dsimp only at he2
      rcases List.mem_append.mp he2 with hmem | hmem
      · exact h e2 hmem
      · rcases List.mem_singleton.mp hmem with rfl
        refine ⟨by dsimp only; omega, ?_, ?_⟩
        · dsimp only
          rw [← hp]
          exact h3
        · dsimp only
          rw [← hp]
    · exact ih (st.1, st.2 ++ [(i, j)]) h e he

end Conn

namespace Conn

lemma innerLoop_length (ps : List (ℝ × ℝ)) (connDist : ℝ) (maxC : ℕ)
    (fade : ℝ × ℝ → ℝ) (i : ℕ) (p : ℝ × ℝ) :
    ∀ (nbrs : List ℕ) (st : List Edge × List (ℕ × ℕ)), st.1.length < maxC →
      (innerLoop ps connDist maxC fade i p nbrs st).1.length ≤ maxC := by
  intro nbrs
  induction nbrs with
  | nil =>
    intro st h
    simp only [innerLoop]
    omega
  | cons j rest ih =>
    intro st h
    simp only [innerLoop]
    split_ifs with h1 h2 h3 h4
    · exact ih st h
    · exact ih st h
    · dsimp only at h4 ⊢
      rw [List.length_append] at h4 ⊢
      simp only [List.length_singleton] at h4 ⊢
      omega
    · refine ih _ ?_
      dsimp only at h4 ⊢
      rw [List.length_append] at h4 ⊢
      simp only [List.length_singleton] at h4 ⊢
      omega
    · exact ih (st.1, st.2 ++ [(i, j)]) h

lemma outerLoop_sound (ps : List (ℝ × ℝ)) (connDist : ℝ) (maxC : ℕ)
    (fade : ℝ × ℝ → ℝ) :
    ∀ (idxs : List ℕ) (st : List Edge × List (ℕ × ℕ)), st.1.length < maxC →
      (∀ e ∈ st.1, e.i < e.j ∧
        Real.sqrt (((ps.getD e.j (0, 0)).1 - (ps.getD e.i (0, 0)).1) *
            ((ps.getD e.j (0, 0)).1 - (ps.getD e.i (0, 0)).1) +
          ((ps.getD e.j (0, 0)).2 - (ps.getD e.i (0, 0)).2) *
            ((ps.getD e.j (0, 0)).2 - (ps.getD e.i (0, 0)).2)) < connDist ∧
        e.alpha = (1 - Real.sqrt (((ps.getD e.j (0, 0)).1 - (ps.getD e.i (0, 0)).1) *
            ((ps.getD e.j (0, 0)).1 - (ps.getD e.i (0, 0)).1) +
          ((ps.getD e.j (0, 0)).2 - (ps.getD e.i (0, 0)).2) *
            ((ps.getD e.j (0, 0)).2 - (ps.getD e.i (0, 0)).2)) / connDist) *
          min (fade (ps.getD e.i (0, 0))) (fade (ps.getD e.j (0, 0)))) →
      (∀ e ∈ (outerLoop ps connDist maxC fade idxs st).1, e.i < e.j ∧
        Real.sqrt (((ps.getD e.j (0, 0)).1 - (ps.getD e.i (0, 0)).1) *
            ((ps.getD e.j (0, 0)).1 - (ps.getD e.i (0, 0)).1) +
          ((ps.getD e.j (0, 0)).2 - (ps.getD e.i (0, 0)).2) *
            ((ps.getD e.j (0, 0)).2 - (ps.getD e.i (0, 0)).2)) < connDist ∧
        e.alpha = (1 - Real.sqrt (((ps.getD e.j (0, 0)).1 - (ps.getD e.i (0, 0)).1) *
            ((ps.getD e.j (0, 0)).1 - (ps.getD e.i (0, 0)).1) +
          ((ps.getD e.j (0, 0)).2 - (ps.getD e.i (0, 0)).2) *
            ((ps.getD e.j (0, 0)).2 - (ps.getD e.i (0, 0)).2)) / connDist) *
          min (fade (ps.getD e.i (0, 0))) (fade (ps.getD e.j (0, 0)))) ∧
      (outerLoop ps connDist maxC fade idxs st).1.length ≤ maxC := by
  intro idxs
  induction idxs with
  | nil =>
    intro st hlt h
    simp only [outerLoop]
    exact ⟨h, le_of_lt hlt⟩
  | cons i rest ih =>
    intro st hlt h
    simp only [outerLoop]
    have hsound := innerLoop_sound ps connDist maxC fade i (ps.getD i (0, 0)) rfl
      (SpatialHash.getPotentialNeighbors connDist (particleHash connDist ps)
        (ps.getD i (0, 0)).1 (ps.getD i (0, 0)).2) st h
    have hlen := innerLoop_length ps connDist maxC fade i (ps.getD i (0, 0))
      (SpatialHash.getPotentialNeighbors connDist (particleHash connDist ps)
        (ps.getD i (0, 0)).1 (ps.getD i (0, 0)).2) st hlt
    split_ifs with hcap
    · exact ⟨hsound, hlen⟩
    · exact ih _ (by omega) hsound

end Conn

/-- C4.  The connectivity graph builder emits only edges `(i, j, alpha)`
with `i < j` whose true Euclidean distance is strictly below
`connectionDistance`, with
`alpha = (1 - dist/connectionDistance) · min(pAlpha, qAlpha)` where
`pAlpha`/`qAlpha` are the endpoints' boundary-fade values; it never
emits `(i, i)`, never emits both `(i, j)` and `(j, i)` for the same
unordered pair, and (for the scenes' positive caps) emits at most
`maxConnections` edges.  Quantified over every particle list, so it
holds in every frame. -/
theorem buildConnections_sound (ps : List (ℝ × ℝ)) (connDist : ℝ) (maxC : ℕ)
    (fade : ℝ × ℝ → ℝ) (hmax : 1 ≤ maxC) :
    (∀ e ∈ Conn.buildConnections ps connDist maxC fade, e.i < e.j ∧
      Real.sqrt (((ps.getD e.j (0, 0)).1 - (ps.getD e.i (0, 0)).1) *
          ((ps.getD e.j (0, 0)).1 - (ps.getD e.i (0, 0)).1) +
        ((ps.getD e.j (0, 0)).2 - (ps.getD e.i (0, 0)).2) *
          ((ps.getD e.j (0, 0)).2 - (ps.getD e.i (0, 0)).2)) < connDist ∧
      e.alpha = (1 - Real.sqrt (((ps.getD e.j (0, 0)).1 - (ps.getD e.i (0, 0)).1) *
          ((ps.getD e.j (0, 0)).1 - (ps.getD e.i (0, 0)).1) +
        ((ps.getD e.j (0, 0)).2 - (ps.getD e.i (0, 0)).2) *
          ((ps.getD e.j (0, 0)).2 - (ps.getD e.i (0, 0)).2)) / connDist) *
        min (fade (ps.getD e.i (0, 0))) (fade (ps.getD e.j (0, 0)))) ∧
    (∀ e ∈ Conn.buildConnections ps connDist maxC fade, e.i ≠ e.j) ∧
    (∀ e ∈ Conn.buildConnections ps connDist maxC fade,
      ∀ e2 ∈ Conn.buildConnections ps connDist maxC fade, ¬(e2.i = e.j ∧ e2.j = e.i)) ∧
    (Conn.buildConnections ps connDist maxC fade).length ≤ maxC := by
  have key := Conn.outerLoop_sound ps connDist maxC fade (List.range ps.length) ([], [])
    (by simpa using hmax) (by intro e he; cases he)
  refine ⟨key.1, ?_, ?_, key.2⟩
  · intro e he
    have := (key.1 e he).1
    omega
  · intro e he e2 he2
    have h1 := (key.1 e he).1
    have h2 := (key.1 e2 he2).1
    omega

/-- Witness for C4 at the constellation scene's configuration
(`connectionDistance = 0.12`, `maxConnections = 1500`,
`EDGE_MARGIN = 0.05`). -/
theorem buildConnections_sound_witness :
    (Conn.buildConnections [] 0.12 1500 (Conn.edgeFade 0.05)).length ≤ 1500 :=
  (buildConnections_sound [] 0.12 1500 (Conn.edgeFade 0.05) (by norm_num)).2.2.2

end ConnTheorems
